import Mathlib

/-!
# ccv / nnc: symbolic graph, alias resolution, autogen, while-loop driver, header code

`lib/nnc/ccv_nnc.h` declares the level-3/4 API of the symbolic graph but holds none of
its function bodies.  The definitions below that stand for such a body are modelled from
the specification (§3, §4.1, §4.2, §4.4) and from the header's doc comments, and each one
says so in its doc comment.  The status `enum`, the `CCV_STREAM_GET_*` macros and the inline
function `ccv_nnc_tensor_nd` are code of the header and are translated from it.
-/

namespace CCV.NNC

/-! ## Data model -/

/-- Modelled from the spec: the per-tensor-symbol record of a symbolic graph (the C struct
behind `ccv_nnc_tensor_symbol_t` is not in the header).  §3: a tensor symbol "may be a base
symbol or an alias (offset + increment view into a base symbol's storage)".
`alias_ref = none` is a base symbol, `alias_ref = some d` an alias created over symbol `d`. -/
structure TensorSymbolInfo where
  alias_ref : Option Nat
  deriving DecidableEq, Repr

/-- Modelled from the spec: the per-operation-symbol record (§3 "Operation Symbol": an
"ordered list of input/output tensor symbols"); symbols are named by their index `d`. -/
structure ExecSymbolInfo where
  inputs : List Nat
  outputs : List Nat
  deriving DecidableEq, Repr

/-- Modelled from the spec: `ccv_nnc_symbolic_graph_t` (opaque in the header).  §3: it "owns
a mapping of tensor symbols and operation symbols; maintains a directed edge set ...;
maintains explicit source/destination sets". -/
structure SymbolicGraph where
  tensor_symbol_info : List TensorSymbolInfo
  exec_symbol_info : List ExecSymbolInfo
  edges : List (Nat × Nat)
  sources : List Nat
  destinations : List Nat
  deriving DecidableEq, Repr

/-- Modelled from the spec: `ccv_nnc_symbolic_graph_new`, "Create an empty symbolic graph". -/
def ccv_nnc_symbolic_graph_new : SymbolicGraph :=
  { tensor_symbol_info := [], exec_symbol_info := [], edges := [], sources := [],
    destinations := [] }

/-! ## Symbol table and aliasing (§4.1) -/

/-- Modelled from the spec: `ccv_nnc_tensor_symbol_new`, "create tensor symbol".  The new
symbol is a base symbol; its handle `d` is its position in the table. -/
def ccv_nnc_tensor_symbol_new (g : SymbolicGraph) : SymbolicGraph × Nat :=
  ({ g with tensor_symbol_info := g.tensor_symbol_info ++ [{ alias_ref := none }] },
   g.tensor_symbol_info.length)

/-- Modelled from the spec: `ccv_nnc_tensor_symbol_alias_new`, "create alias symbol (...
view over a base ...)".  The symbol aliased must be one of this graph (a base symbol or
itself an alias: the spec speaks of alias chains of any depth); otherwise nothing is
created. -/
def ccv_nnc_tensor_symbol_alias_new (g : SymbolicGraph) (tensor_symbol : Nat) :
    Option (SymbolicGraph × Nat) :=
  if tensor_symbol < g.tensor_symbol_info.length then
    some ({ g with tensor_symbol_info :=
                     g.tensor_symbol_info ++ [{ alias_ref := some tensor_symbol }] },
          g.tensor_symbol_info.length)
  else none

/-- Follow `alias_ref` links from symbol `d`, at most `fuel` symbols being looked at. -/
def resolve_chain (tbl : List TensorSymbolInfo) : Nat → Nat → Option Nat
  | 0, _ => none
  | fuel + 1, d =>
    match tbl[d]? with
    | none => none
    | some info =>
      match info.alias_ref with
      | none => some d
      | some r => resolve_chain tbl fuel r

/-- Modelled from the spec: `ccv_nnc_tensor_symbol_resolve_alias`, "resolve alias to base"
(header: "For a given alias, this method resolve to referenced tensor symbol").  The chain
of aliases is followed until a base symbol is met; a chain visits no symbol twice, so the
number of symbols bounds the walk.  `none` stands for a symbol that is not of this graph. -/
def ccv_nnc_tensor_symbol_resolve_alias (g : SymbolicGraph) (tensor_alias : Nat) :
    Option Nat :=
  resolve_chain g.tensor_symbol_info g.tensor_symbol_info.length tensor_alias

/-- Symbol `d` is a base (non-alias) symbol of the table. -/
def is_base_symbol (g : SymbolicGraph) (d : Nat) : Prop :=
  g.tensor_symbol_info[d]? = some { alias_ref := none }

instance (g : SymbolicGraph) (d : Nat) : Decidable (is_base_symbol g d) := by
  unfold is_base_symbol; infer_instance

/-- Modelled from the spec: `ccv_nnc_graph_exec_symbol_new`, "create operation symbol with
explicit input/output symbol lists". -/
def ccv_nnc_graph_exec_symbol_new (g : SymbolicGraph) (inputs outputs : List Nat) :
    SymbolicGraph × Nat :=
  ({ g with exec_symbol_info := g.exec_symbol_info ++ [{ inputs := inputs, outputs := outputs }] },
   g.exec_symbol_info.length)

/-! ## Edges and autogen (§4.2) -/

/-- Modelled from the spec: `ccv_nnc_graph_exec_symbol_concat` ("Manually concatenate input
graph nodes with an output graph node ... Return non-zero if cannot concat successfully").
It cannot when an end is not an operation symbol of the graph, when the edge would be a
self-loop (§4.2) or when the edge is there already; the graph is then left as it was (§7). -/
def ccv_nnc_graph_exec_symbol_concat (g : SymbolicGraph) (source destination : Nat) :
    Int × SymbolicGraph :=
  if source < g.exec_symbol_info.length ∧ destination < g.exec_symbol_info.length ∧
      source ≠ destination ∧ (source, destination) ∉ g.edges then
    (0, { g with edges := g.edges ++ [(source, destination)] })
  else (-1, g)

/-- Modelled from the spec: `ccv_nnc_graph_exec_symbol_disjoin` ("Manually disconnect ...
Return non-zero if cannot disjoin successfully"): it cannot when there is no such edge. -/
def ccv_nnc_graph_exec_symbol_disjoin (g : SymbolicGraph) (source destination : Nat) :
    Int × SymbolicGraph :=
  if (source, destination) ∈ g.edges then
    (0, { g with edges := g.edges.filter fun e => e ≠ (source, destination) })
  else (-1, g)

/-- Two tensor symbols are the same dependency target: "an alias and its base are the same
dependency target" (§4.2). -/
def same_target (g : SymbolicGraph) (o i : Nat) : Bool :=
  match ccv_nnc_tensor_symbol_resolve_alias g o, ccv_nnc_tensor_symbol_resolve_alias g i with
  | some a, some b => a == b
  | _, _ => false

/-- Operation symbol `p` "produces a tensor symbol consumed by" operation symbol `c`. -/
def produces_for (g : SymbolicGraph) (p c : Nat) : Bool :=
  match g.exec_symbol_info[p]?, g.exec_symbol_info[c]? with
  | some a, some b => a.outputs.any fun o => b.inputs.any fun i => same_target g o i
  | _, _ => false

/-- What autogen does for one ordered pair of operation symbols: "add an edge P→C" when P
produces for C and the edge is missing, "remove edges that are no longer implied"
otherwise.  The graph keeps no record of how an edge came to be, so an edge declared by hand
that no tensor implies is removed like any other.  `none` when the concatenation or
disjunction asked for is refused. -/
def autogen_pair (g : SymbolicGraph) (e : Nat × Nat) : Option SymbolicGraph :=
  if produces_for g e.1 e.2 then
    if e ∈ g.edges then some g
    else
      let r := ccv_nnc_graph_exec_symbol_concat g e.1 e.2
      if r.1 = 0 then some r.2 else none
  else
    if e ∈ g.edges then
      let r := ccv_nnc_graph_exec_symbol_disjoin g e.1 e.2
      if r.1 = 0 then some r.2 else none
    else some g

/-- The node set autogen works on: "nil for execs and 0 for exec_size means to loop over all
the execs on the graph and autogen" (header). -/
def autogen_scope (g : SymbolicGraph) (execs : List Nat) : List Nat :=
  if execs.isEmpty then List.range g.exec_symbol_info.length else execs

/-- The graph autogen hands back once its loop over the pairs of `scope` has ended in `g1`:
"It also computes the graph's source set (nodes with no predecessor within the traversal
scope) and destination set (nodes with no successor)" (§4.2). -/
def autogen_finish (scope : List Nat) (g1 : SymbolicGraph) : SymbolicGraph :=
  { g1 with
      sources := scope.filter fun d => !(scope.any fun p => decide ((p, d) ∈ g1.edges)),
      destinations := scope.filter fun d => !(g1.edges.any fun e => decide (e.1 = d)) }

/-- Modelled from the spec: `ccv_nnc_graph_exec_symbol_autogen` (§4.2): "given a node set (or
the whole graph), for every pair of operation symbols (P, C) where P produces a tensor
symbol consumed by C ..., add an edge P→C; remove edges that are no longer implied.  It
also computes the graph's source set (nodes with no predecessor within the traversal
scope) and destination set (nodes with no successor)."  A non-zero status is returned, and
the graph left unmodified (§7), when a requested concatenation is refused or a node given
is not of the graph. -/
def ccv_nnc_graph_exec_symbol_autogen (g : SymbolicGraph) (execs : List Nat) :
    Int × SymbolicGraph :=
  let scope := autogen_scope g execs
  if scope.all fun d => decide (d < g.exec_symbol_info.length) then
    match (scope.product scope).foldlM autogen_pair g with
    | none => (-1, g)
    | some g' => (0, autogen_finish scope g')
  else (-1, g)

/-- Modelled from the spec: `ccv_nnc_symbolic_graph_set_sources`. -/
def ccv_nnc_symbolic_graph_set_sources (g : SymbolicGraph) (sources : List Nat) :
    SymbolicGraph :=
  { g with sources := sources }

/-- Modelled from the spec: `ccv_nnc_symbolic_graph_set_destinations`. -/
def ccv_nnc_symbolic_graph_set_destinations (g : SymbolicGraph) (destinations : List Nat) :
    SymbolicGraph :=
  { g with destinations := destinations }

/-- One call of the graph-construction API of the header, among the calls modelled above
(the autodiff pass and the symbolic while construct are not). -/
inductive GraphOp where
  | tensor_symbol_new
  | tensor_symbol_alias_new (tensor_symbol : Nat)
  | graph_exec_symbol_new (inputs outputs : List Nat)
  | graph_exec_symbol_concat (source destination : Nat)
  | graph_exec_symbol_disjoin (source destination : Nat)
  | graph_exec_symbol_autogen (execs : List Nat)
  | set_sources (sources : List Nat)
  | set_destinations (destinations : List Nat)
  deriving DecidableEq, Repr

/-- The graph after one API call (the value returned to the caller is dropped; a call that
fails leaves the graph as it was). -/
def GraphOp.apply (g : SymbolicGraph) : GraphOp → SymbolicGraph
  | .tensor_symbol_new => (ccv_nnc_tensor_symbol_new g).1
  | .tensor_symbol_alias_new d =>
    match ccv_nnc_tensor_symbol_alias_new g d with
    | some r => r.1
    | none => g
  | .graph_exec_symbol_new inputs outputs => (ccv_nnc_graph_exec_symbol_new g inputs outputs).1
  | .graph_exec_symbol_concat s d => (ccv_nnc_graph_exec_symbol_concat g s d).2
  | .graph_exec_symbol_disjoin s d => (ccv_nnc_graph_exec_symbol_disjoin g s d).2
  | .graph_exec_symbol_autogen execs => (ccv_nnc_graph_exec_symbol_autogen g execs).2
  | .set_sources l => ccv_nnc_symbolic_graph_set_sources g l
  | .set_destinations l => ccv_nnc_symbolic_graph_set_destinations g l

/-- The symbolic graph a sequence of API calls builds, starting from the empty graph. -/
def construct (ops : List GraphOp) : SymbolicGraph :=
  ops.foldl GraphOp.apply ccv_nnc_symbolic_graph_new

/-- A small graph: tensor symbol 1 is an alias of the base symbol 0, operation
symbol 0 writes the alias, operation symbol 1 reads the base and writes symbol 2, and a
declared edge 1 → 0 that no tensor implies is there before autogen. -/
def autogen_example : SymbolicGraph :=
  construct [.tensor_symbol_new, .tensor_symbol_alias_new 0, .tensor_symbol_new,
    .graph_exec_symbol_new [] [1], .graph_exec_symbol_new [0] [2],
    .graph_exec_symbol_concat 1 0]

/-! ## While loop (§4.4) -/

/-- Modelled from the spec: a while-loop sub-graph as `ccv_nnc_graph_while_run` drives it
(§4.4 and the doc comment of `ccv_nnc_symbolic_graph_while`); `σ` is the contents of the
tensors the sub-graph works on.  `run_to_cfo` is the run from the incoming nodes "until all
CFO-nodes are reached", `while_expr` the condition evaluator, which reads the loop counter
(the special tensor) and the tensors, `run_to_end` the loop body, the run that continues
"until all the end-nodes are reached", and `rebind` the reconfiguration "with parameter
map". -/
structure WhileGraph (σ : Type) where
  run_to_cfo : σ → σ
  while_expr : Nat → σ → Bool
  run_to_end : σ → σ
  rebind : σ → σ

/-- What a run of a while-loop sub-graph has done so far: the tensors, the loop counter
(`ccv_nnc_tensor_symbol_for_while_count`: a 64-bit integer tensor, counted here in `Nat`),
the number of evaluations of the condition and the number of runs of the loop body. -/
structure WhileState (σ : Type) where
  tensors : σ
  count : Nat
  cond_evals : Nat
  body_runs : Nat

/-- The loop of the driver: "the WL sub-graph runs until all CFO-nodes are reached.  At this
point, the while_f condition is checked.  If true, we continue until all the end-nodes are
reached.  At this point, we increase the counter, reconfigure the WL sub-graph with
parameter map, and run from I-nodes all over again. ... if false, WL sub-graph terminates".
`fuel` bounds the number of evaluations of the condition; `none` when it runs out. -/
def while_loop {σ : Type} (w : WhileGraph σ) : Nat → WhileState σ → Option (WhileState σ)
  | 0, _ => none
  | fuel + 1, r =>
    let t := w.run_to_cfo r.tensors
    if w.while_expr r.count t then
      while_loop w fuel
        { tensors := w.rebind (w.run_to_end t), count := r.count + 1,
          cond_evals := r.cond_evals + 1, body_runs := r.body_runs + 1 }
    else
      some { tensors := t, count := r.count, cond_evals := r.cond_evals + 1,
             body_runs := r.body_runs }

/-- Modelled from the spec: `ccv_nnc_graph_while_run` on one while-loop sub-graph, from the
tensors `s` with the loop counter at 0. -/
def ccv_nnc_graph_while_run {σ : Type} (w : WhileGraph σ) (fuel : Nat) (s : σ) :
    Option (WhileState σ) :=
  while_loop w fuel { tensors := s, count := 0, cond_evals := 0, body_runs := 0 }

/-- The tensors the condition reads at its evaluation number `j` (counted from 0). -/
def tensors_at_eval {σ : Type} (w : WhileGraph σ) (s : σ) : Nat → σ
  | 0 => w.run_to_cfo s
  | j + 1 => w.run_to_cfo (w.rebind (w.run_to_end (tensors_at_eval w s j)))

/-- The loop of the scenario in §8: the body adds 1 to a scalar tensor, the condition is
"counter < 5" on that scalar. -/
def count_to_five : WhileGraph Int :=
  { run_to_cfo := fun x => x, while_expr := fun _ x => decide (x < 5),
    run_to_end := fun x => x + 1, rebind := fun x => x }

/-! ## Code of the header: status codes, stream types, tensor dimensions -/

/-- `CCV_NNC_EXEC_SUCCESS = 0`. -/
def CCV_NNC_EXEC_SUCCESS : Int := 0

/-- `CCV_NNC_EXEC_INVALID = -1`, "Invalid input". -/
def CCV_NNC_EXEC_INVALID : Int := -1

/-- `CCV_NNC_EXEC_NO_KERNEL = -2`. -/
def CCV_NNC_EXEC_NO_KERNEL : Int := -2

/-- `CCV_NNC_EXEC_OOM = -3`. -/
def CCV_NNC_EXEC_OOM : Int := -3

/-- The enumerators of the status `enum`, in the order of the header. -/
def exec_status_codes : List Int :=
  [CCV_NNC_EXEC_SUCCESS, CCV_NNC_EXEC_INVALID, CCV_NNC_EXEC_NO_KERNEL, CCV_NNC_EXEC_OOM]

/-- The three enumerators that report a failure. -/
def exec_failure_codes : List Int :=
  [CCV_NNC_EXEC_INVALID, CCV_NNC_EXEC_NO_KERNEL, CCV_NNC_EXEC_OOM]

/-- `CCV_STREAM_CONTEXT_CPU = 0x1`. -/
def CCV_STREAM_CONTEXT_CPU : Int := 0x1

/-- `CCV_STREAM_CONTEXT_GPU = 0x2`. -/
def CCV_STREAM_CONTEXT_GPU : Int := 0x2

/-- The 32 bits of a C `int`, two's complement, as a natural number below `2 ^ 32`. -/
def int_bits (x : Int) : Nat := (x % 2 ^ 32).toNat

/-- The C `int` that 32 bits stand for (bits above the 32nd are dropped). -/
def bits_int (n : Nat) : Int :=
  if n % 2 ^ 32 < 2 ^ 31 then ((n % 2 ^ 32 : Nat) : Int)
  else ((n % 2 ^ 32 : Nat) : Int) - 2 ^ 32

/-- `x & y` on C `int`s. -/
def int_and (x y : Int) : Int := bits_int (int_bits x &&& int_bits y)

/-- `x | y` on C `int`s. -/
def int_or (x y : Int) : Int := bits_int (int_bits x ||| int_bits y)

/-- `x << k` on a C `int`, as the 32 bits it leaves. -/
def int_shl (x : Int) (k : Nat) : Int := bits_int (int_bits x <<< k)

/-- `x >> k` on a C `int`: the arithmetic shift (for `x ≥ 0`, the quotient by `2 ^ k`). -/
def int_shr (x : Int) (k : Nat) : Int := x >>> k

/-- `#define CCV_STREAM_GET_CONTEXT(type) ((type) & 0x3)`. -/
def CCV_STREAM_GET_CONTEXT (type : Int) : Int := int_and type 0x3

/-- `#define CCV_STREAM_GET_DEVICE(type) ((type) & 0xff00)`. -/
def CCV_STREAM_GET_DEVICE (type : Int) : Int := int_and type 0xff00

/-- `#define CCV_STREAM_GET_DEVICE_ID(type) (CCV_STREAM_GET_DEVICE(type) >> 8)`. -/
def CCV_STREAM_GET_DEVICE_ID (type : Int) : Int := int_shr (CCV_STREAM_GET_DEVICE type) 8

/-- The stream type made of a context kind and a device id, `c | (d << 8)` ("Flag is a
combination of CPU / GPU and DEVICE_ID"). -/
def stream_type (c d : Int) : Int := int_or c (int_shl d 8)

/-- The `for` loop of `ccv_nnc_tensor_nd`, entered at index `i`:
`for (; i < CCV_NNC_MAX_DIM_ALLOC; i++) if (dim[i] == 0) return i;` followed by
`return CCV_NNC_MAX_DIM_ALLOC;`.  `MAX_DIM_ALLOC` stands for `CCV_NNC_MAX_DIM_ALLOC`, which
`ccv.h` defines and the header only uses.  `reads` lists the indices of `dim` read so far.
`none`: an index outside `dim` was read, or the loop did not end within `fuel` rounds. -/
def tensor_nd_loop (MAX_DIM_ALLOC : Nat) (dim : List Int) :
    Nat → Nat → List Nat → Option (Nat × List Nat)
  | 0, _, _ => none
  | fuel + 1, i, reads =>
    if i < MAX_DIM_ALLOC then
      match dim[i]? with
      | none => none
      | some x =>
        if x = 0 then some (i, reads ++ [i])
        else tensor_nd_loop MAX_DIM_ALLOC dim fuel (i + 1) (reads ++ [i])
    else some (MAX_DIM_ALLOC, reads)

/-- A call of `ccv_nnc_tensor_nd(dim)`: the value returned and the indices of `dim` read,
in the order they were read. -/
def ccv_nnc_tensor_nd_run (MAX_DIM_ALLOC : Nat) (dim : List Int) : Option (Nat × List Nat) :=
  tensor_nd_loop MAX_DIM_ALLOC dim (MAX_DIM_ALLOC + 1) 0 []

/-- The value `ccv_nnc_tensor_nd(dim)` returns. -/
def ccv_nnc_tensor_nd (MAX_DIM_ALLOC : Nat) (dim : List Int) : Option Nat :=
  (ccv_nnc_tensor_nd_run MAX_DIM_ALLOC dim).map Prod.fst

/-- A dimension array of 8 entries: three non-zero entries, one of them negative, then a
zero, a non-zero entry and zeros. -/
def nd_example : List Int := [3, -2, 5, 0, 7, 0, 0, 0]

/-! ## Multi-view tensors (§3) -/

/-- The kinds of a multi-view tensor, the `enum` of the header:
`CCV_NNC_MULTIVIEW_K11`, `CCV_NNC_MULTIVIEW_K02`, `CCV_NNC_MULTIVIEW_K12`. -/
inductive MultiviewKind where
  | K11
  | K02
  | K12
  deriving DecidableEq, Repr

/-- The number of buffers of `data[]` used once, for the first iterations, before the
cyclic ones: the first digit of the kind's name (K11: "The first one is the first", K02:
none, K12: "The first one is the first"). -/
def MultiviewKind.head_views : MultiviewKind → Nat
  | .K11 => 1
  | .K02 => 0
  | .K12 => 1

/-- The number of buffers of `data[]` used in turn afterwards: the second digit of the
kind's name (K11: "the second one is the rest", K02 and K12: two buffers alternate). -/
def MultiviewKind.cycle_views : MultiviewKind → Nat
  | .K11 => 1
  | .K02 => 2
  | .K12 => 2

/-- Modelled from the spec: the index in `data[]` of the buffer a multi-view tensor uses at
loop iteration `i` ("a cyclic or prefix/rest selection rule", §3; the code that moves the
current pointer is not in the header): the head buffers in order, then the cyclic ones in
turn. -/
def multiview_index (kind : MultiviewKind) (i : Nat) : Nat :=
  if i < kind.head_views then i
  else kind.head_views + (i - kind.head_views) % kind.cycle_views

/-- The size of `data[]` in `ccv_nnc_tensor_multiview_t`: "fixed allocation of 3". -/
def multiview_data_size : Nat := 3

/-! ## Invariants -/

/-- Every alias of the table was created over a symbol older than itself. -/
def alias_refs_earlier (tbl : List TensorSymbolInfo) : Prop :=
  ∀ d r, tbl[d]? = some (TensorSymbolInfo.mk (some r)) → r < d

/-! ## Lemmas on the symbol table -/

theorem alias_refs_earlier_nil : alias_refs_earlier [] := by
  intro d r h
  simp at h

theorem alias_refs_earlier_snoc (tbl : List TensorSymbolInfo) (info : TensorSymbolInfo)
    (h : alias_refs_earlier tbl) (hinfo : ∀ r, info.alias_ref = some r → r < tbl.length) :
    alias_refs_earlier (tbl ++ [info]) := by
  intro d r hd
  rcases Nat.lt_trichotomy d tbl.length with hlt | heq | hgt
  · rw [List.getElem?_append_left hlt] at hd
    exact h d r hd
  · subst heq
    simp at hd
    exact hinfo r (by rw [hd])
  · have : (tbl ++ [info])[d]? = none := by
      apply List.getElem?_eq_none
      simp
      omega
    rw [this] at hd
    cases hd

theorem foldlM_autogen_pair_tables (l : List (Nat × Nat)) (g g' : SymbolicGraph)
    (h : l.foldlM autogen_pair g = some g') :
    g'.tensor_symbol_info = g.tensor_symbol_info ∧ g'.exec_symbol_info = g.exec_symbol_info := by
  induction l generalizing g with
  | nil =>
    simp at h
    subst h
    exact ⟨rfl, rfl⟩
  | cons e l ih =>
    rw [List.foldlM_cons] at h
    cases hstep : autogen_pair g e with
    | none => rw [hstep] at h; cases h
    | some g1 =>
      rw [hstep] at h
      have h1 := ih g1 h
      have h2 : g1.tensor_symbol_info = g.tensor_symbol_info ∧
          g1.exec_symbol_info = g.exec_symbol_info := by
        unfold autogen_pair ccv_nnc_graph_exec_symbol_concat
          ccv_nnc_graph_exec_symbol_disjoin at hstep
        split_ifs at hstep <;> simp at hstep <;> subst hstep <;> exact ⟨rfl, rfl⟩
      exact ⟨h1.1.trans h2.1, h1.2.trans h2.2⟩

theorem autogen_tables (g : SymbolicGraph) (execs : List Nat) :
    (ccv_nnc_graph_exec_symbol_autogen g execs).2.tensor_symbol_info = g.tensor_symbol_info ∧
    (ccv_nnc_graph_exec_symbol_autogen g execs).2.exec_symbol_info = g.exec_symbol_info := by
  unfold ccv_nnc_graph_exec_symbol_autogen
  simp only
  split_ifs with hall
  · cases hfold : List.foldlM autogen_pair g
        ((autogen_scope g execs).product (autogen_scope g execs)) with
    | none => exact ⟨rfl, rfl⟩
    | some g' => exact foldlM_autogen_pair_tables _ g g' hfold
  · exact ⟨rfl, rfl⟩

theorem apply_alias_refs_earlier (g : SymbolicGraph) (op : GraphOp)
    (h : alias_refs_earlier g.tensor_symbol_info) :
    alias_refs_earlier (op.apply g).tensor_symbol_info := by
  cases op with
  | tensor_symbol_new =>
    exact alias_refs_earlier_snoc _ _ h (by intro r hr; cases hr)
  | tensor_symbol_alias_new d =>
    simp only [GraphOp.apply, ccv_nnc_tensor_symbol_alias_new]
    split_ifs with hd
    · exact alias_refs_earlier_snoc _ _ h (by
        intro r hr
        cases hr
        exact hd)
    · exact h
  | graph_exec_symbol_new inputs outputs => exact h
  | graph_exec_symbol_concat s d =>
    simp only [GraphOp.apply, ccv_nnc_graph_exec_symbol_concat]
    split_ifs <;> exact h
  | graph_exec_symbol_disjoin s d =>
    simp only [GraphOp.apply, ccv_nnc_graph_exec_symbol_disjoin]
    split_ifs <;> exact h
  | graph_exec_symbol_autogen execs =>
    simp only [GraphOp.apply]
    rw [(autogen_tables g execs).1]
    exact h
  | set_sources l => exact h
  | set_destinations l => exact h

theorem foldl_apply_alias_refs_earlier (ops : List GraphOp) (g : SymbolicGraph)
    (h : alias_refs_earlier g.tensor_symbol_info) :
    alias_refs_earlier (ops.foldl GraphOp.apply g).tensor_symbol_info := by
  induction ops generalizing g with
  | nil => exact h
  | cons op ops ih => exact ih _ (apply_alias_refs_earlier g op h)

theorem construct_alias_refs_earlier (ops : List GraphOp) :
    alias_refs_earlier (construct ops).tensor_symbol_info :=
  foldl_apply_alias_refs_earlier ops _ alias_refs_earlier_nil

/-- With more fuel than the index of the symbol it starts from, the walk along the alias
links ends at a base symbol that is not younger than the start. -/
theorem resolve_chain_base (tbl : List TensorSymbolInfo) (h : alias_refs_earlier tbl)
    (fuel d : Nat) (hfuel : d < fuel) (hd : d < tbl.length) :
    ∃ b, resolve_chain tbl fuel d = some b ∧ b ≤ d ∧ tbl[b]? = some (TensorSymbolInfo.mk none) := by
  induction fuel generalizing d with
  | zero => omega
  | succ fuel ih =>
    have hget : tbl[d]? = some tbl[d] := List.getElem?_eq_getElem hd
    cases href : tbl[d].alias_ref with
    | none =>
      refine ⟨d, ?_, le_refl d, ?_⟩
      · simp [resolve_chain, hget, href]
      · rw [hget, ← href]
    | some r =>
      have hr : r < d := h d r (by rw [hget, ← href])
      obtain ⟨b, hb, hle, hbase⟩ := ih r (by omega) (by omega)
      refine ⟨b, ?_, by omega, hbase⟩
      simp [resolve_chain, hget, href, hb]

theorem resolve_chain_of_base (tbl : List TensorSymbolInfo) (fuel b : Nat)
    (hb : tbl[b]? = some (TensorSymbolInfo.mk none)) :
    resolve_chain tbl (fuel + 1) b = some b := by
  simp [resolve_chain, hb]

/-! ## Lemmas on autogen -/

theorem same_target_congr (g g' : SymbolicGraph)
    (h : g'.tensor_symbol_info = g.tensor_symbol_info) (o i : Nat) :
    same_target g' o i = same_target g o i := by
  unfold same_target ccv_nnc_tensor_symbol_resolve_alias
  rw [h]

theorem produces_for_congr (g g' : SymbolicGraph)
    (ht : g'.tensor_symbol_info = g.tensor_symbol_info)
    (he : g'.exec_symbol_info = g.exec_symbol_info) (p c : Nat) :
    produces_for g' p c = produces_for g p c := by
  unfold produces_for
  rw [he]
  have : same_target g' = same_target g := by
    funext o i
    exact same_target_congr g g' ht o i
  rw [this]

/-- What `produces_for` decides, spelled out on the two operation symbols. -/
theorem produces_for_iff (g : SymbolicGraph) (p c : Nat) (a b : ExecSymbolInfo)
    (hp : g.exec_symbol_info[p]? = some a) (hc : g.exec_symbol_info[c]? = some b) :
    produces_for g p c = true ↔
      ∃ o ∈ a.outputs, ∃ i ∈ b.inputs, ∃ t,
        ccv_nnc_tensor_symbol_resolve_alias g o = some t ∧
        ccv_nnc_tensor_symbol_resolve_alias g i = some t := by
  unfold produces_for
  rw [hp, hc]
  simp only [List.any_eq_true]
  constructor
  · rintro ⟨o, ho, i, hi, hsame⟩
    refine ⟨o, ho, i, hi, ?_⟩
    unfold same_target at hsame
    cases h1 : ccv_nnc_tensor_symbol_resolve_alias g o with
    | none => rw [h1] at hsame; simp at hsame
    | some x =>
      cases h2 : ccv_nnc_tensor_symbol_resolve_alias g i with
      | none => rw [h1, h2] at hsame; simp at hsame
      | some y =>
        rw [h1, h2] at hsame
        simp at hsame
        exact ⟨x, rfl, by rw [hsame]⟩
  · rintro ⟨o, ho, i, hi, t, h1, h2⟩
    refine ⟨o, ho, i, hi, ?_⟩
    unfold same_target
    rw [h1, h2]
    simp

/-- One step of autogen settles the pair it is given and touches no other edge. -/
theorem autogen_pair_edges (g g1 : SymbolicGraph) (e : Nat × Nat)
    (h : autogen_pair g e = some g1) (x : Nat × Nat) :
    x ∈ g1.edges ↔ if x = e then produces_for g e.1 e.2 = true else x ∈ g.edges := by
  unfold autogen_pair at h
  by_cases hp : produces_for g e.1 e.2 = true
  · rw [if_pos hp] at h
    by_cases hmem : e ∈ g.edges
    · rw [if_pos hmem] at h
      cases h
      by_cases hx : x = e
      · simp [hx, hp, hmem]
      · simp [hx]
    · rw [if_neg hmem] at h
      unfold ccv_nnc_graph_exec_symbol_concat at h
      simp only at h
      by_cases hc : e.1 < g.exec_symbol_info.length ∧ e.2 < g.exec_symbol_info.length ∧
          e.1 ≠ e.2 ∧ (e.1, e.2) ∉ g.edges
      · rw [if_pos hc] at h
        simp at h
        subst h
        by_cases hx : x = e
        · simp [hx, hp]
        · simp [hx]
      · rw [if_neg hc] at h
        simp at h
  · rw [if_neg hp] at h
    by_cases hmem : e ∈ g.edges
    · rw [if_pos hmem] at h
      unfold ccv_nnc_graph_exec_symbol_disjoin at h
      simp only at h
      rw [if_pos hmem] at h
      simp at h
      subst h
      by_cases hx : x = e
      · simp [hx, hp]
      · simp [hx, List.mem_filter]
    · rw [if_neg hmem] at h
      cases h
      by_cases hx : x = e
      · simp [hx, hp, hmem]
      · simp [hx]

theorem autogen_pair_tables (g g1 : SymbolicGraph) (e : Nat × Nat)
    (h : autogen_pair g e = some g1) :
    g1.tensor_symbol_info = g.tensor_symbol_info ∧
      g1.exec_symbol_info = g.exec_symbol_info :=
  foldlM_autogen_pair_tables [e] g g1 (by simp [h])

/-- The loop of autogen over a list of pairs: a pair of the list ends up an edge exactly
when it is implied, every other edge is as before. -/
theorem foldlM_autogen_pair_edges (l : List (Nat × Nat)) (g g' : SymbolicGraph)
    (h : l.foldlM autogen_pair g = some g') (x : Nat × Nat) :
    x ∈ g'.edges ↔ if x ∈ l then produces_for g x.1 x.2 = true else x ∈ g.edges := by
  induction l generalizing g with
  | nil =>
    simp at h
    subst h
    simp
  | cons e l ih =>
    rw [List.foldlM_cons] at h
    cases hstep : autogen_pair g e with
    | none => rw [hstep] at h; cases h
    | some g1 =>
      rw [hstep] at h
      have hrest := ih g1 h
      have hone := autogen_pair_edges g g1 e hstep x
      have htab := autogen_pair_tables g g1 e hstep
      rw [hrest, produces_for_congr g g1 htab.1 htab.2, hone]
      by_cases hxl : x ∈ l
      · simp [hxl]
      · by_cases hxe : x = e
        · subst hxe
          simp [hxl]
        · simp [hxl, hxe]

/-- A step of autogen on a pair that is already settled changes nothing. -/
theorem autogen_pair_settled (g : SymbolicGraph) (e : Nat × Nat)
    (h : e ∈ g.edges ↔ produces_for g e.1 e.2 = true) : autogen_pair g e = some g := by
  unfold autogen_pair
  by_cases hp : produces_for g e.1 e.2 = true
  · rw [if_pos hp, if_pos (h.mpr hp)]
  · rw [if_neg hp, if_neg (fun hmem => hp (h.mp hmem))]

theorem foldlM_autogen_pair_settled (l : List (Nat × Nat)) (g : SymbolicGraph)
    (h : ∀ e ∈ l, (e ∈ g.edges ↔ produces_for g e.1 e.2 = true)) :
    l.foldlM autogen_pair g = some g := by
  induction l with
  | nil => rfl
  | cons e l ih =>
    rw [List.foldlM_cons, autogen_pair_settled g e (h e (List.mem_cons_self e l))]
    exact ih (fun e' he' => h e' (List.mem_cons_of_mem e he'))

theorem autogen_of_fold (g g1 : SymbolicGraph) (execs : List Nat)
    (hall : ((autogen_scope g execs).all fun d => decide (d < g.exec_symbol_info.length)) = true)
    (hfold : ((autogen_scope g execs).product (autogen_scope g execs)).foldlM autogen_pair g =
      some g1) :
    ccv_nnc_graph_exec_symbol_autogen g execs = (0, autogen_finish (autogen_scope g execs) g1) := by
  unfold ccv_nnc_graph_exec_symbol_autogen
  simp only
  rw [if_pos hall, hfold]

/-- The two ways a call of autogen ends. -/
theorem autogen_cases (g : SymbolicGraph) (execs : List Nat) :
    ccv_nnc_graph_exec_symbol_autogen g execs = (-1, g) ∨
    ∃ g1, ((autogen_scope g execs).all fun d => decide (d < g.exec_symbol_info.length)) = true ∧
      ((autogen_scope g execs).product (autogen_scope g execs)).foldlM autogen_pair g = some g1 ∧
      ccv_nnc_graph_exec_symbol_autogen g execs =
        (0, autogen_finish (autogen_scope g execs) g1) := by
  by_cases hall :
      ((autogen_scope g execs).all fun d => decide (d < g.exec_symbol_info.length)) = true
  · rcases Option.eq_none_or_eq_some
        (((autogen_scope g execs).product (autogen_scope g execs)).foldlM autogen_pair g) with
      hfold | ⟨g1, hfold⟩
    · left
      unfold ccv_nnc_graph_exec_symbol_autogen
      simp only
      rw [if_pos hall, hfold]
    · right
      exact ⟨g1, hall, hfold, autogen_of_fold g g1 execs hall hfold⟩
  · left
    unfold ccv_nnc_graph_exec_symbol_autogen
    simp only
    rw [if_neg hall]

/-! ## Lemmas on the stream-type accessors -/

theorem int_bits_natCast (n : Nat) (h : n < 2 ^ 32) : int_bits (n : Int) = n := by
  unfold int_bits
  have : ((n : Int) % 2 ^ 32) = (n : Int) := Int.emod_eq_of_lt (by omega) (by exact_mod_cast h)
  rw [this]
  simp

theorem bits_int_of_lt (n : Nat) (h : n < 2 ^ 31) : bits_int n = (n : Int) := by
  unfold bits_int
  have h1 : n % 2 ^ 32 = n := Nat.mod_eq_of_lt (by omega)
  rw [h1, if_pos h]

theorem int_bits_lt (x : Int) : int_bits x < 2 ^ 32 := by
  unfold int_bits
  have h1 : 0 ≤ x % 2 ^ 32 := Int.emod_nonneg x (by norm_num)
  have h2 : x % 2 ^ 32 < 2 ^ 32 := Int.emod_lt_of_pos x (by norm_num)
  omega

theorem nat_and_ff00 (n : Nat) : n &&& 0xff00 = (n / 256 % 256) * 256 := by
  apply Nat.eq_of_testBit_eq
  intro i
  have h1 : (0xff00 : Nat) = (2 ^ 8 - 1) <<< 8 := by decide
  have h2 : (n / 256 % 256) * 256 = 2 ^ 8 * ((n >>> 8) % 2 ^ 8) := by
    rw [Nat.shiftRight_eq_div_pow, Nat.mul_comm]
    norm_num
  rw [Nat.testBit_and, h1, Nat.testBit_shiftLeft, Nat.testBit_two_pow_sub_one, h2,
    Nat.testBit_mul_pow_two, Nat.testBit_mod_two_pow, Nat.testBit_shiftRight]
  by_cases hi : i ≥ 8
  · have : 8 + (i - 8) = i := by omega
    rw [this]
    cases n.testBit i <;> simp [hi]
  · simp [hi]

theorem nat_or_shl (c d : Nat) (hc : c < 256) : c ||| (d <<< 8) = d * 256 + c := by
  rw [Nat.or_comm, Nat.shiftLeft_eq, Nat.mul_comm d]
  exact (Nat.mul_add_lt_is_or (by simpa using hc) d).symm

/-- `CCV_STREAM_GET_CONTEXT` reads the two lowest bits. -/
theorem get_context_eq (t : Int) :
    CCV_STREAM_GET_CONTEXT t = ((int_bits t % 4 : Nat) : Int) := by
  unfold CCV_STREAM_GET_CONTEXT int_and
  have h3 : int_bits 0x3 = 2 ^ 2 - 1 := by decide
  rw [h3, Nat.and_pow_two_sub_one_eq_mod]
  exact bits_int_of_lt _ (by omega)

/-- `CCV_STREAM_GET_DEVICE` keeps bits 8 to 15 in place. -/
theorem get_device_eq (t : Int) :
    CCV_STREAM_GET_DEVICE t = ((int_bits t / 256 % 256 * 256 : Nat) : Int) := by
  unfold CCV_STREAM_GET_DEVICE int_and
  have h3 : int_bits 0xff00 = 0xff00 := by decide
  rw [h3, nat_and_ff00]
  exact bits_int_of_lt _ (by omega)

/-- `CCV_STREAM_GET_DEVICE_ID` reads bits 8 to 15. -/
theorem get_device_id_eq (t : Int) :
    CCV_STREAM_GET_DEVICE_ID t = ((int_bits t / 256 % 256 : Nat) : Int) := by
  unfold CCV_STREAM_GET_DEVICE_ID int_shr
  rw [get_device_eq, Int.shiftRight_eq_div_pow]
  push_cast
  omega

theorem int_shl_8 (n : Nat) (h : n ≤ 255) : int_shl (n : Int) 8 = ((n * 256 : Nat) : Int) := by
  unfold int_shl
  rw [int_bits_natCast n (by omega), Nat.shiftLeft_eq]
  exact bits_int_of_lt _ (by omega)

theorem int_bits_stream_type (c n : Nat) (hc : c < 4) (h : n ≤ 255) :
    int_bits (stream_type (c : Int) (n : Int)) = n * 256 + c := by
  unfold stream_type int_or
  have hshl : n * 256 = n <<< 8 := by rw [Nat.shiftLeft_eq]
  rw [int_shl_8 n h, int_bits_natCast c (by omega), int_bits_natCast (n * 256) (by omega),
    hshl, nat_or_shl c n (by omega), bits_int_of_lt (n * 256 + c) (by omega)]
  rw [← hshl]
  exact int_bits_natCast (n * 256 + c) (by omega)

/-- The accessors on a stream type made of a context kind and a device id. -/
theorem stream_type_fields (c d : Int)
    (hc : c = CCV_STREAM_CONTEXT_CPU ∨ c = CCV_STREAM_CONTEXT_GPU) (hd : 0 ≤ d ∧ d ≤ 255) :
    CCV_STREAM_GET_CONTEXT (stream_type c d) = c ∧
    CCV_STREAM_GET_DEVICE_ID (stream_type c d) = d ∧
    CCV_STREAM_GET_DEVICE (stream_type c d) = int_shl d 8 := by
  obtain ⟨n, rfl⟩ : ∃ n : Nat, d = n := ⟨d.toNat, by omega⟩
  have hn : n ≤ 255 := by omega
  obtain ⟨k, rfl, hk⟩ : ∃ k : Nat, c = k ∧ (k = 1 ∨ k = 2) := by
    rcases hc with h | h
    · exact ⟨1, by rw [h]; rfl, Or.inl rfl⟩
    · exact ⟨2, by rw [h]; rfl, Or.inr rfl⟩
  have hbits := int_bits_stream_type k n (by omega) hn
  refine ⟨?_, ?_, ?_⟩
  · rw [get_context_eq, hbits]
    have : (n * 256 + k) % 4 = k := by omega
    rw [this]
  · rw [get_device_id_eq, hbits]
    have : (n * 256 + k) / 256 % 256 = n := by omega
    rw [this]
  · rw [get_device_eq, hbits, int_shl_8 n hn]
    have : (n * 256 + k) / 256 % 256 = n := by omega
    rw [this]

theorem mod_four_of_testBit (n m : Nat) (h : ∀ i < 2, n.testBit i = m.testBit i) :
    n % 4 = m % 4 := by
  show n % 2 ^ 2 = m % 2 ^ 2
  apply Nat.eq_of_testBit_eq
  intro i
  rw [Nat.testBit_mod_two_pow, Nat.testBit_mod_two_pow]
  by_cases hi : i < 2
  · rw [h i hi]
  · simp [hi]

theorem second_byte_of_testBit (n m : Nat)
    (h : ∀ i < 16, 8 ≤ i → n.testBit i = m.testBit i) :
    n / 256 % 256 = m / 256 % 256 := by
  show n / 2 ^ 8 % 2 ^ 8 = m / 2 ^ 8 % 2 ^ 8
  rw [← Nat.shiftRight_eq_div_pow, ← Nat.shiftRight_eq_div_pow]
  apply Nat.eq_of_testBit_eq
  intro i
  rw [Nat.testBit_mod_two_pow, Nat.testBit_mod_two_pow, Nat.testBit_shiftRight,
    Nat.testBit_shiftRight]
  by_cases hi : i < 8
  · rw [h (8 + i) (by omega) (by omega)]
  · simp [hi]

/-! ## Lemmas on `ccv_nnc_tensor_nd` -/

/-- The loop entered at `i ≤ N` on an array of `N` entries, with more rounds allowed than
entries left: it returns the first index from `i` on whose entry is 0, or `N`, after reading
the indices from `i` to that one, each once and in order. -/
theorem tensor_nd_loop_spec (N : Nat) (dim : List Int) (hlen : dim.length = N) :
    ∀ (fuel i : Nat) (reads : List Nat), i ≤ N → N - i < fuel →
      ∃ r, tensor_nd_loop N dim fuel i reads =
          some (r, reads ++ List.range' i (min (r + 1) N - i)) ∧
        i ≤ r ∧ r ≤ N ∧
        (∀ j, i ≤ j → j < r → ∃ x, dim[j]? = some x ∧ x ≠ 0) ∧
        (r < N → dim[r]? = some 0) := by
  intro fuel
  induction fuel with
  | zero => intro i reads _ h; omega
  | succ fuel ih =>
    intro i reads hi hfuel
    by_cases hiN : i < N
    · have hget : dim[i]? = some dim[i] := List.getElem?_eq_getElem (by omega)
      by_cases hz : dim[i] = 0
      · refine ⟨i, ?_, le_refl i, hi, ?_, ?_⟩
        · have hcnt : min (i + 1) N - i = 1 := by omega
          simp [tensor_nd_loop, hiN, hget, hz, hcnt, List.range']
        · intro j h1 h2; omega
        · intro _; rw [hget, hz]
      · obtain ⟨r, hr, hir, hrN, hnz, hzero⟩ := ih (i + 1) (reads ++ [i]) (by omega) (by omega)
        refine ⟨r, ?_, by omega, hrN, ?_, hzero⟩
        · have hcnt : min (r + 1) N - i = (min (r + 1) N - (i + 1)) + 1 := by omega
          simp only [tensor_nd_loop, hiN, if_true, hget, hz, if_false]
          rw [hr, hcnt, List.range'_succ]
          simp
        · intro j h1 h2
          by_cases hji : j = i
          · subst hji
            exact ⟨dim[j], hget, hz⟩
          · exact hnz j (by omega) h2
    · have hiN' : i = N := by omega
      subst hiN'
      refine ⟨i, ?_, le_refl i, le_refl i, ?_, ?_⟩
      · simp [tensor_nd_loop]
      · intro j h1 h2; omega
      · intro h; omega

/-- What a call of `ccv_nnc_tensor_nd` on an array of `N` entries returns and reads. -/
theorem tensor_nd_run_spec (N : Nat) (dim : List Int) (hlen : dim.length = N) :
    ∃ r, ccv_nnc_tensor_nd_run N dim = some (r, List.range (min (r + 1) N)) ∧ r ≤ N ∧
      (∀ j < r, ∃ x, dim[j]? = some x ∧ x ≠ 0) ∧ (r < N → dim[r]? = some 0) := by
  obtain ⟨r, hr, _, hrN, hnz, hzero⟩ :=
    tensor_nd_loop_spec N dim hlen (N + 1) 0 [] (by omega) (by omega)
  refine ⟨r, ?_, hrN, fun j hj => hnz j (by omega) hj, hzero⟩
  unfold ccv_nnc_tensor_nd_run
  rw [hr, List.range_eq_range']
  simp

/-- The value returned is fixed by the entries up to the first zero. -/
theorem tensor_nd_unique (N : Nat) (dim : List Int) (r r' : Nat) (hr : r ≤ N) (hr' : r' ≤ N)
    (hnz : ∀ j < r, ∃ x, dim[j]? = some x ∧ x ≠ 0) (hzero : r < N → dim[r]? = some 0)
    (hnz' : ∀ j < r', ∃ x, dim[j]? = some x ∧ x ≠ 0) (hzero' : r' < N → dim[r']? = some 0) :
    r = r' := by
  rcases Nat.lt_trichotomy r r' with h | h | h
  · obtain ⟨x, hx, hx0⟩ := hnz' r h
    rw [hzero (by omega)] at hx
    exact absurd (Option.some.inj hx).symm hx0
  · exact h
  · obtain ⟨x, hx, hx0⟩ := hnz r' h
    rw [hzero' (by omega)] at hx
    exact absurd (Option.some.inj hx).symm hx0

/-- The index characterised by `tensor_nd_run_spec` is the number of leading non-zero
entries. -/
theorem takeWhile_length_of_first_zero (dim : List Int) (r : Nat) (hr : r ≤ dim.length)
    (hnz : ∀ j < r, ∃ x, dim[j]? = some x ∧ x ≠ 0)
    (hzero : r < dim.length → dim[r]? = some 0) :
    (dim.takeWhile fun x => decide (x ≠ 0)).length = r := by
  induction dim generalizing r with
  | nil =>
    simp at hr
    subst hr
    rfl
  | cons a l ih =>
    cases r with
    | zero =>
      have h0 := hzero (by simp)
      simp at h0
      subst h0
      simp
    | succ k =>
      obtain ⟨x, hx, hx0⟩ := hnz 0 (by omega)
      simp at hx
      subst hx
      have hk := ih k (by simpa using hr)
        (fun j hj => by simpa using hnz (j + 1) (by omega))
        (fun hlt => by simpa using hzero (by simpa using hlt))
      have hdec : decide (a ≠ 0) = true := by simpa using hx0
      rw [List.takeWhile_cons, hdec]
      simp only [if_true, List.length_cons, hk]

/-! ## Alias resolution -/

/-- C1: in every symbolic graph built through the construction API, resolving any tensor
symbol `s` of the graph terminates (the walk is bounded by the number of symbols and still
returns) with a base symbol `b` of the same graph; a base symbol resolves to itself; and
resolving is idempotent, whether `s` came from `ccv_nnc_tensor_symbol_new` or from
`ccv_nnc_tensor_symbol_alias_new` over any symbol. -/
theorem resolve_alias_reaches_base (ops : List GraphOp) (s : Nat)
    (hs : s < (construct ops).tensor_symbol_info.length) :
    ∃ b, ccv_nnc_tensor_symbol_resolve_alias (construct ops) s = some b ∧
      b < (construct ops).tensor_symbol_info.length ∧
      is_base_symbol (construct ops) b ∧
      (is_base_symbol (construct ops) s → b = s) ∧
      (ccv_nnc_tensor_symbol_resolve_alias (construct ops) s).bind
          (ccv_nnc_tensor_symbol_resolve_alias (construct ops)) =
        ccv_nnc_tensor_symbol_resolve_alias (construct ops) s := by
  have hwf := construct_alias_refs_earlier ops
  have hres : ∃ b, ccv_nnc_tensor_symbol_resolve_alias (construct ops) s = some b ∧ b ≤ s ∧
      (construct ops).tensor_symbol_info[b]? = some (TensorSymbolInfo.mk none) :=
    resolve_chain_base _ hwf (construct ops).tensor_symbol_info.length s hs hs
  obtain ⟨b, hb, hle, hbase⟩ := hres
  have hlen : (construct ops).tensor_symbol_info.length =
      ((construct ops).tensor_symbol_info.length - 1) + 1 := by omega
  have hbb : ccv_nnc_tensor_symbol_resolve_alias (construct ops) b = some b := by
    unfold ccv_nnc_tensor_symbol_resolve_alias
    rw [hlen]
    exact resolve_chain_of_base _ _ b hbase
  refine ⟨b, hb, by omega, hbase, ?_, ?_⟩
  · intro hsbase
    have hss : ccv_nnc_tensor_symbol_resolve_alias (construct ops) s = some s := by
      unfold ccv_nnc_tensor_symbol_resolve_alias
      rw [hlen]
      exact resolve_chain_of_base _ _ s hsbase
    rw [hss] at hb
    exact (Option.some.inj hb).symm
  · rw [hb]
    exact hbb

/-- C1 at a chain of depth two: symbol 2 is an alias of symbol 1, itself an alias of the
base symbol 0. -/
theorem resolve_alias_reaches_base_witness :
    ∃ b, ccv_nnc_tensor_symbol_resolve_alias
        (construct [.tensor_symbol_new, .tensor_symbol_alias_new 0,
          .tensor_symbol_alias_new 1]) 2 = some b ∧
      b < (construct [.tensor_symbol_new, .tensor_symbol_alias_new 0,
          .tensor_symbol_alias_new 1]).tensor_symbol_info.length ∧
      is_base_symbol (construct [.tensor_symbol_new, .tensor_symbol_alias_new 0,
          .tensor_symbol_alias_new 1]) b ∧
      (is_base_symbol (construct [.tensor_symbol_new, .tensor_symbol_alias_new 0,
          .tensor_symbol_alias_new 1]) 2 → b = 2) ∧
      (ccv_nnc_tensor_symbol_resolve_alias (construct [.tensor_symbol_new,
          .tensor_symbol_alias_new 0, .tensor_symbol_alias_new 1]) 2).bind
          (ccv_nnc_tensor_symbol_resolve_alias (construct [.tensor_symbol_new,
          .tensor_symbol_alias_new 0, .tensor_symbol_alias_new 1])) =
        ccv_nnc_tensor_symbol_resolve_alias (construct [.tensor_symbol_new,
          .tensor_symbol_alias_new 0, .tensor_symbol_alias_new 1]) 2 :=
  resolve_alias_reaches_base
    [.tensor_symbol_new, .tensor_symbol_alias_new 0, .tensor_symbol_alias_new 1] 2
    (by decide)

/-! ## Autogen -/

/-- C2: after `ccv_nnc_graph_exec_symbol_autogen` over the whole graph (`execs` nil) returns
0, for every pair of operation symbols `P`, `C` of the graph there is an edge `P → C` if and
only if some output tensor symbol of `P` and some input tensor symbol of `C` resolve to the
same base symbol, whatever edges the graph held before. -/
theorem autogen_edges_exact (g g' : SymbolicGraph)
    (h : ccv_nnc_graph_exec_symbol_autogen g [] = (0, g')) (P C : Nat) (a c : ExecSymbolInfo)
    (hP : g'.exec_symbol_info[P]? = some a) (hC : g'.exec_symbol_info[C]? = some c) :
    (P, C) ∈ g'.edges ↔
      ∃ o ∈ a.outputs, ∃ i ∈ c.inputs, ∃ t,
        ccv_nnc_tensor_symbol_resolve_alias g' o = some t ∧
        ccv_nnc_tensor_symbol_resolve_alias g' i = some t := by
  rcases autogen_cases g [] with hfail | ⟨g1, _, hfold, hok⟩
  · rw [hfail] at h
    simp at h
  · rw [hok] at h
    have hg' : g' = autogen_finish (autogen_scope g []) g1 := (Prod.mk.inj h).2.symm
    have htab := foldlM_autogen_pair_tables _ g g1 hfold
    have ht' : g'.tensor_symbol_info = g.tensor_symbol_info := by rw [hg']; exact htab.1
    have he' : g'.exec_symbol_info = g.exec_symbol_info := by rw [hg']; exact htab.2
    have hedges : g'.edges = g1.edges := by rw [hg']; rfl
    have hPlt : P < g.exec_symbol_info.length := by
      rw [he'] at hP
      exact (List.getElem?_eq_some.mp hP).1
    have hClt : C < g.exec_symbol_info.length := by
      rw [he'] at hC
      exact (List.getElem?_eq_some.mp hC).1
    have hmem : (P, C) ∈ (autogen_scope g []).product (autogen_scope g []) := by
      simp [autogen_scope, List.product, hPlt, hClt]
    rw [hedges, foldlM_autogen_pair_edges _ g g1 hfold (P, C), if_pos hmem,
      ← produces_for_congr g g' ht' he']
    exact produces_for_iff g' P C a c hP hC

/-- C2 on `autogen_example`: the edge 0 → 1 is there after autogen because the alias
written and the base read are the same target. -/
theorem autogen_edges_exact_witness :
    (0, 1) ∈ (ccv_nnc_graph_exec_symbol_autogen autogen_example []).2.edges ↔
      ∃ o ∈ [1], ∃ i ∈ [0], ∃ t,
        ccv_nnc_tensor_symbol_resolve_alias
          (ccv_nnc_graph_exec_symbol_autogen autogen_example []).2 o = some t ∧
        ccv_nnc_tensor_symbol_resolve_alias
          (ccv_nnc_graph_exec_symbol_autogen autogen_example []).2 i = some t :=
  autogen_edges_exact autogen_example (ccv_nnc_graph_exec_symbol_autogen autogen_example []).2
    (by decide) 0 1 { inputs := [], outputs := [1] } { inputs := [0], outputs := [2] }
    (by decide) (by decide)

/-- C3: autogen is idempotent.  Running it again on the graph it returned, with the same
node set, returns the same status and the same graph: the same edge set, the same source
set and the same destination set. -/
theorem autogen_idempotent (g : SymbolicGraph) (execs : List Nat) :
    ccv_nnc_graph_exec_symbol_autogen (ccv_nnc_graph_exec_symbol_autogen g execs).2 execs =
      ccv_nnc_graph_exec_symbol_autogen g execs := by
  rcases autogen_cases g execs with hfail | ⟨g1, hall, hfold, hok⟩
  · rw [hfail]
    exact hfail
  · have htab := foldlM_autogen_pair_tables _ g g1 hfold
    rw [hok]
    simp only
    have hscope : autogen_scope (autogen_finish (autogen_scope g execs) g1) execs =
        autogen_scope g execs := by
      unfold autogen_scope
      show (if execs.isEmpty then List.range g1.exec_symbol_info.length else execs) = _
      rw [htab.2]
    have hall' : ((autogen_scope (autogen_finish (autogen_scope g execs) g1) execs).all
        fun d => decide
          (d < (autogen_finish (autogen_scope g execs) g1).exec_symbol_info.length)) = true := by
      rw [hscope]
      show ((autogen_scope g execs).all
        fun d => decide (d < g1.exec_symbol_info.length)) = true
      rw [htab.2]
      exact hall
    have hfold' : ((autogen_scope (autogen_finish (autogen_scope g execs) g1) execs).product
        (autogen_scope (autogen_finish (autogen_scope g execs) g1) execs)).foldlM autogen_pair
          (autogen_finish (autogen_scope g execs) g1) =
        some (autogen_finish (autogen_scope g execs) g1) := by
      rw [hscope]
      apply foldlM_autogen_pair_settled
      intro e he
      have hedge := foldlM_autogen_pair_edges _ g g1 hfold e
      rw [if_pos he] at hedge
      rw [produces_for_congr g (autogen_finish (autogen_scope g execs) g1) htab.1 htab.2]
      exact hedge
    rw [autogen_of_fold _ _ execs hall' hfold', hscope]
    rfl

/-! ## The while-loop driver -/

/-- The loop of the driver, started at any point of a run: if the condition holds at the
next `k` evaluations and fails at the one after, the loop returns when given more than `k`
units of fuel, having evaluated the condition `k + 1` times and run the body `k` times
more. -/
theorem while_loop_counts {σ : Type} (w : WhileGraph σ) (k : Nat) :
    ∀ (fuel : Nat) (r : WhileState σ) (seen : Nat → σ),
      seen 0 = w.run_to_cfo r.tensors →
      (∀ j, seen (j + 1) = w.run_to_cfo (w.rebind (w.run_to_end (seen j)))) →
      (∀ j < k, w.while_expr (r.count + j) (seen j) = true) →
      w.while_expr (r.count + k) (seen k) = false →
      k < fuel →
      while_loop w fuel r =
        some { tensors := seen k, count := r.count + k, cond_evals := r.cond_evals + (k + 1),
               body_runs := r.body_runs + k } := by
  induction k with
  | zero =>
    intro fuel r seen h0 _ _ hfalse hfuel
    obtain ⟨fuel, rfl⟩ : ∃ n, fuel = n + 1 := ⟨fuel - 1, by omega⟩
    have hf : w.while_expr r.count (w.run_to_cfo r.tensors) = false := by
      rw [← h0]
      exact hfalse
    simp [while_loop, hf, h0]
  | succ k ih =>
    intro fuel r seen h0 hstep htrue hfalse hfuel
    obtain ⟨fuel, rfl⟩ : ∃ n, fuel = n + 1 := ⟨fuel - 1, by omega⟩
    have ht : w.while_expr r.count (w.run_to_cfo r.tensors) = true := by
      rw [← h0]
      exact htrue 0 (by omega)
    have hnext := ih fuel
      { tensors := w.rebind (w.run_to_end (w.run_to_cfo r.tensors)), count := r.count + 1,
        cond_evals := r.cond_evals + 1, body_runs := r.body_runs + 1 }
      (fun j => seen (j + 1))
      (by
        show seen (0 + 1) = w.run_to_cfo (w.rebind (w.run_to_end (w.run_to_cfo r.tensors)))
        rw [hstep 0, h0])
      (fun j => hstep (j + 1))
      (fun j hj => by
        have := htrue (j + 1) (by omega)
        rw [show r.count + 1 + j = r.count + (j + 1) by omega]
        exact this)
      (by
        rw [show r.count + 1 + k = r.count + (k + 1) by omega]
        exact hfalse)
      (by omega)
    simp only [while_loop, ht, if_true]
    rw [hnext]
    simp only [Option.some.injEq, WhileState.mk.injEq, true_and]
    omega

/-- C9: for a while-loop sub-graph whose condition evaluator returns true on its first `k`
evaluations and false on evaluation `k + 1`, `ccv_nnc_graph_while_run` returns (any fuel
above `k` is enough), having evaluated the condition exactly `k + 1` times and run the loop
body exactly `k` times, with the loop counter equal to `k` on exit and the tensors those
the last evaluation of the condition read. -/
theorem while_run_counts {σ : Type} (w : WhileGraph σ) (s : σ) (k fuel : Nat)
    (htrue : ∀ j < k, w.while_expr j (tensors_at_eval w s j) = true)
    (hfalse : w.while_expr k (tensors_at_eval w s k) = false) (hfuel : k < fuel) :
    ∃ r, ccv_nnc_graph_while_run w fuel s = some r ∧ r.cond_evals = k + 1 ∧
      r.body_runs = k ∧ r.count = k ∧ r.tensors = tensors_at_eval w s k := by
  have h := while_loop_counts w k fuel
    { tensors := s, count := 0, cond_evals := 0, body_runs := 0 } (tensors_at_eval w s)
    rfl (fun _ => rfl) (by simpa using htrue) (by simpa using hfalse) hfuel
  refine ⟨_, h, ?_, ?_, ?_, rfl⟩ <;> simp

/-- C9 on the scenario of §8: the body adds 1 to a scalar, the condition is "counter < 5",
the scalar starts at 0: the condition is evaluated 6 times, the body runs exactly 5 times
and the loop counter is 5 on exit. -/
theorem while_run_counts_witness :
    ∃ r, ccv_nnc_graph_while_run count_to_five 6 0 = some r ∧ r.cond_evals = 5 + 1 ∧
      r.body_runs = 5 ∧ r.count = 5 ∧ r.tensors = tensors_at_eval count_to_five 0 5 :=
  while_run_counts count_to_five 0 5 6 (by decide) (by decide) (by decide)

/-! ## Multi-view tensors -/

/-- C11: the index of the buffer of `data[]` active at loop iteration `i` is, for K11, 0 at
`i = 0` and 1 afterwards; for K02, `i mod 2`; for K12, 0 at `i = 0` and `1 + ((i - 1) mod 2)`
afterwards.  The first indices are the digits the header writes out (0111111, 0101010101,
012121212).  For every kind the index is below 3, the size of `data[]`, and below 2 for K11
and K02. -/
theorem multiview_index_pattern (i : Nat) :
    multiview_index .K11 i = (if i = 0 then 0 else 1) ∧
    multiview_index .K02 i = i % 2 ∧
    multiview_index .K12 i = (if i = 0 then 0 else 1 + (i - 1) % 2) ∧
    (List.range 7).map (multiview_index .K11) = [0, 1, 1, 1, 1, 1, 1] ∧
    (List.range 10).map (multiview_index .K02) = [0, 1, 0, 1, 0, 1, 0, 1, 0, 1] ∧
    (List.range 9).map (multiview_index .K12) = [0, 1, 2, 1, 2, 1, 2, 1, 2] ∧
    (∀ kind, multiview_index kind i < multiview_data_size) ∧
    multiview_index .K11 i < 2 ∧ multiview_index .K02 i < 2 := by
  have h11 : multiview_index .K11 i = (if i = 0 then 0 else 1) := by
    unfold multiview_index MultiviewKind.head_views MultiviewKind.cycle_views
    simp only
    split_ifs <;> omega
  have h02 : multiview_index .K02 i = i % 2 := by
    unfold multiview_index MultiviewKind.head_views MultiviewKind.cycle_views
    simp
  have h12 : multiview_index .K12 i = (if i = 0 then 0 else 1 + (i - 1) % 2) := by
    unfold multiview_index MultiviewKind.head_views MultiviewKind.cycle_views
    simp only
    split_ifs <;> omega
  refine ⟨h11, h02, h12, by decide, by decide, by decide, ?_, ?_, ?_⟩
  · intro kind
    unfold multiview_data_size
    cases kind
    · rw [h11]; split_ifs <;> omega
    · rw [h02]; omega
    · rw [h12]; split_ifs <;> omega
  · rw [h11]; split_ifs <;> omega
  · rw [h02]; omega

/-! ## Status codes -/

/-- C14: the four status codes `CCV_NNC_EXEC_SUCCESS`, `_INVALID`, `_NO_KERNEL`, `_OOM` are
pairwise distinct, success is 0, each of the three failure codes is negative, and a status
code is a failure code if and only if it is non-zero. -/
theorem exec_status_codes_distinct :
    exec_status_codes.Nodup ∧ exec_status_codes.length = 4 ∧
    CCV_NNC_EXEC_SUCCESS = 0 ∧
    (∀ s ∈ exec_failure_codes, s < 0) ∧
    (∀ s ∈ exec_status_codes, s ∈ exec_failure_codes ↔ s ≠ 0) := by
  decide

/-! ## Stream types -/

/-- C15: for a context kind `c` (CPU or GPU) and a device id `d` with `0 ≤ d ≤ 255`, the
type `t = c | (d << 8)` has `CCV_STREAM_GET_CONTEXT(t) = c`, `CCV_STREAM_GET_DEVICE_ID(t) = d`
and `CCV_STREAM_GET_DEVICE(t) = d << 8`; the two masks share no bit, and changing the device
id leaves the context read unchanged, changing the context leaves the device id read
unchanged. -/
theorem stream_type_accessors (c d : Int)
    (hc : c = CCV_STREAM_CONTEXT_CPU ∨ c = CCV_STREAM_CONTEXT_GPU) (hd : 0 ≤ d ∧ d ≤ 255) :
    CCV_STREAM_GET_CONTEXT (stream_type c d) = c ∧
    CCV_STREAM_GET_DEVICE_ID (stream_type c d) = d ∧
    CCV_STREAM_GET_DEVICE (stream_type c d) = int_shl d 8 ∧
    int_and 0x3 0xff00 = 0 ∧
    (∀ d', 0 ≤ d' ∧ d' ≤ 255 →
      CCV_STREAM_GET_CONTEXT (stream_type c d') = CCV_STREAM_GET_CONTEXT (stream_type c d)) ∧
    (∀ c', c' = CCV_STREAM_CONTEXT_CPU ∨ c' = CCV_STREAM_CONTEXT_GPU →
      CCV_STREAM_GET_DEVICE_ID (stream_type c' d) =
        CCV_STREAM_GET_DEVICE_ID (stream_type c d)) := by
  have h := stream_type_fields c d hc hd
  refine ⟨h.1, h.2.1, h.2.2, by decide, ?_, ?_⟩
  · intro d' hd'
    rw [(stream_type_fields c d' hc hd').1, h.1]
  · intro c' hc'
    rw [(stream_type_fields c' d hc' hd).2.1, h.2.1]

/-- C15 at the GPU context with device id 3. -/
theorem stream_type_accessors_witness :
    CCV_STREAM_GET_CONTEXT (stream_type CCV_STREAM_CONTEXT_GPU 3) = CCV_STREAM_CONTEXT_GPU ∧
    CCV_STREAM_GET_DEVICE_ID (stream_type CCV_STREAM_CONTEXT_GPU 3) = 3 ∧
    CCV_STREAM_GET_DEVICE (stream_type CCV_STREAM_CONTEXT_GPU 3) = int_shl 3 8 :=
  (fun h => ⟨h.1, h.2.1, h.2.2.1⟩)
    (stream_type_accessors CCV_STREAM_CONTEXT_GPU 3 (Or.inr rfl) (by decide))

/-- C19: for every `int` stream type `t`, negative or with bits set outside the two fields,
`CCV_STREAM_GET_DEVICE_ID(t)` lies in [0, 255] and `CCV_STREAM_GET_CONTEXT(t)` in [0, 3];
the context depends only on bits 0-1 of the 32 bits of `t` and the device id only on bits
8-15, so two types that differ only in bits 2-7 or 16-31 have the same context and the same
device id. -/
theorem stream_accessors_range (t t' : Int) :
    (0 ≤ CCV_STREAM_GET_DEVICE_ID t ∧ CCV_STREAM_GET_DEVICE_ID t ≤ 255) ∧
    (0 ≤ CCV_STREAM_GET_CONTEXT t ∧ CCV_STREAM_GET_CONTEXT t ≤ 3) ∧
    ((∀ i < 2, (int_bits t).testBit i = (int_bits t').testBit i) →
      CCV_STREAM_GET_CONTEXT t = CCV_STREAM_GET_CONTEXT t') ∧
    ((∀ i < 16, 8 ≤ i → (int_bits t).testBit i = (int_bits t').testBit i) →
      CCV_STREAM_GET_DEVICE_ID t = CCV_STREAM_GET_DEVICE_ID t') := by
  rw [get_device_id_eq, get_context_eq, get_device_id_eq, get_context_eq]
  refine ⟨by omega, by omega, ?_, ?_⟩
  · intro h
    rw [mod_four_of_testBit _ _ h]
  · intro h
    rw [second_byte_of_testBit _ _ h]

/-- C19 at `t = -1` (all 32 bits set) and `t' = 0xff03`, which differ in bits 2-7 and
16-31 only. -/
theorem stream_accessors_range_witness :
    CCV_STREAM_GET_CONTEXT (-1) = CCV_STREAM_GET_CONTEXT 0xff03 ∧
    CCV_STREAM_GET_DEVICE_ID (-1) = CCV_STREAM_GET_DEVICE_ID 0xff03 ∧
    CCV_STREAM_GET_DEVICE_ID (-1) = 255 ∧ CCV_STREAM_GET_CONTEXT (-1) = 3 :=
  ⟨(stream_accessors_range (-1) 0xff03).2.2.1 (by decide),
   (stream_accessors_range (-1) 0xff03).2.2.2 (by decide), by decide, by decide⟩

/-! ## `ccv_nnc_tensor_nd` -/

/-- C17: on a dimension array of `CCV_NNC_MAX_DIM_ALLOC` entries, `ccv_nnc_tensor_nd` returns
the least index whose entry is 0, and `CCV_NNC_MAX_DIM_ALLOC` when no entry is 0.
Equivalently the value `r` returned is the number of leading non-zero entries: the entries
below `r` are non-zero and the entry at `r` is 0 whenever `r` is an index.  Only whether an
entry is 0 counts (a negative entry is a non-zero one), and the entries after the first
zero do not affect the result. -/
theorem tensor_nd_least_zero (N : Nat) (dim : List Int) (hlen : dim.length = N) :
    ∃ r, ccv_nnc_tensor_nd N dim = some r ∧ r ≤ N ∧
      (∀ j < r, ∃ x, dim[j]? = some x ∧ x ≠ 0) ∧
      (r < N → dim[r]? = some 0) ∧
      (∀ i, dim[i]? = some 0 → r ≤ i) ∧
      ((∀ i < N, dim[i]? ≠ some 0) → r = N) ∧
      r = (dim.takeWhile fun x => decide (x ≠ 0)).length ∧
      (∀ dim' : List Int, dim'.length = N → (∀ j : Nat, dim'[j]? = some 0 ↔ dim[j]? = some 0) →
        ccv_nnc_tensor_nd N dim' = some r) ∧
      (∀ dim' : List Int, dim'.length = N → (∀ j ≤ r, dim'[j]? = dim[j]?) →
        ccv_nnc_tensor_nd N dim' = some r) := by
  obtain ⟨r, hrun, hrN, hnz, hzero⟩ := tensor_nd_run_spec N dim hlen
  have hret : ∀ (d : List Int) (q : Nat) (l : List Nat),
      ccv_nnc_tensor_nd_run N d = some (q, l) → ccv_nnc_tensor_nd N d = some q := by
    intro d q l h
    unfold ccv_nnc_tensor_nd
    rw [h]
    rfl
  refine ⟨r, hret _ _ _ hrun, hrN, hnz, hzero, ?_, ?_, ?_, ?_, ?_⟩
  · intro i hi
    by_contra hlt
    obtain ⟨x, hx, hx0⟩ := hnz i (by omega)
    rw [hi] at hx
    exact hx0 (Option.some.inj hx).symm
  · intro hall
    by_contra hne
    exact hall r (by omega) (hzero (by omega))
  · exact (takeWhile_length_of_first_zero dim r (by omega) hnz
      (fun h => hzero (by omega))).symm
  · intro dim' hlen' hsame
    obtain ⟨r', hrun', hrN', hnz', hzero'⟩ := tensor_nd_run_spec N dim' hlen'
    have heq : r = r' := by
      apply tensor_nd_unique N dim' r r' hrN hrN' _ _ hnz' hzero'
      · intro j hj
        refine ⟨dim'[j], List.getElem?_eq_getElem (by omega), ?_⟩
        intro h0
        have hz : dim'[j]? = some 0 := by
          rw [List.getElem?_eq_getElem (by omega), h0]
        obtain ⟨x, hx, hx0⟩ := hnz j hj
        rw [(hsame j).mp hz] at hx
        exact hx0 (Option.some.inj hx).symm
      · intro h
        exact (hsame r).mpr (hzero h)
    rw [heq]
    exact hret _ _ _ hrun'
  · intro dim' hlen' hsame
    obtain ⟨r', hrun', hrN', hnz', hzero'⟩ := tensor_nd_run_spec N dim' hlen'
    have heq : r = r' := by
      apply tensor_nd_unique N dim' r r' hrN hrN' _ _ hnz' hzero'
      · intro j hj
        rw [hsame j (by omega)]
        exact hnz j hj
      · intro h
        rw [hsame r (le_refl r)]
        exact hzero h
    rw [heq]
    exact hret _ _ _ hrun'

/-- C17 on an array of 8 entries whose first zero is at index 3, after a negative entry. -/
theorem tensor_nd_least_zero_witness :
    ∃ r, ccv_nnc_tensor_nd 8 nd_example = some r ∧ r ≤ 8 ∧
      (∀ j < r, ∃ x, nd_example[j]? = some x ∧ x ≠ 0) ∧
      (r < 8 → nd_example[r]? = some 0) ∧
      (∀ i, nd_example[i]? = some 0 → r ≤ i) ∧
      ((∀ i < 8, nd_example[i]? ≠ some 0) → r = 8) ∧
      r = (nd_example.takeWhile fun x => decide (x ≠ 0)).length ∧
      (∀ dim' : List Int, dim'.length = 8 →
        (∀ j : Nat, dim'[j]? = some 0 ↔ nd_example[j]? = some 0) →
        ccv_nnc_tensor_nd 8 dim' = some r) ∧
      (∀ dim' : List Int, dim'.length = 8 →
        (∀ j ≤ r, dim'[j]? = nd_example[j]?) →
        ccv_nnc_tensor_nd 8 dim' = some r) :=
  tensor_nd_least_zero 8 nd_example (by decide)

/-- C18: on a dimension array of `CCV_NNC_MAX_DIM_ALLOC` entries the loop of
`ccv_nnc_tensor_nd` returns: it reads at most `CCV_NNC_MAX_DIM_ALLOC` entries, every index
it reads is below `CCV_NNC_MAX_DIM_ALLOC` (the indices 0, 1, ... in order, none twice), and
the value `r` returned satisfies `0 ≤ r ≤ CCV_NNC_MAX_DIM_ALLOC`, with `r = 0` exactly when
`dim[0] = 0` and `r = CCV_NNC_MAX_DIM_ALLOC` exactly when all entries are non-zero. -/
theorem tensor_nd_in_bounds (N : Nat) (dim : List Int) (hlen : dim.length = N) (hN : 0 < N) :
    ∃ r reads, ccv_nnc_tensor_nd_run N dim = some (r, reads) ∧
      ccv_nnc_tensor_nd N dim = some r ∧
      reads.length ≤ N ∧ (∀ j ∈ reads, j < N) ∧ reads = List.range reads.length ∧
      0 ≤ r ∧ r ≤ N ∧
      (r = 0 ↔ dim[0]? = some 0) ∧
      (r = N ↔ ∀ j < N, dim[j]? ≠ some 0) := by
  obtain ⟨r, hrun, hrN, hnz, hzero⟩ := tensor_nd_run_spec N dim hlen
  refine ⟨r, List.range (min (r + 1) N), hrun, ?_, ?_, ?_, ?_, Nat.zero_le r, hrN, ?_, ?_⟩
  · unfold ccv_nnc_tensor_nd
    rw [hrun]
    rfl
  · rw [List.length_range]
    omega
  · intro j hj
    rw [List.mem_range] at hj
    omega
  · rw [List.length_range]
  · constructor
    · intro h0
      subst h0
      exact hzero hN
    · intro hz
      by_contra hne
      obtain ⟨x, hx, hx0⟩ := hnz 0 (by omega)
      rw [hz] at hx
      exact hx0 (Option.some.inj hx).symm
  · constructor
    · intro hr j hj hz
      subst hr
      obtain ⟨x, hx, hx0⟩ := hnz j hj
      rw [hz] at hx
      exact hx0 (Option.some.inj hx).symm
    · intro hall
      by_contra hne
      exact hall r (by omega) (hzero (by omega))

/-- C18 on an array of 8 entries whose first zero is at index 3: four reads, at the
indices 0 to 3. -/
theorem tensor_nd_in_bounds_witness :
    ∃ r reads, ccv_nnc_tensor_nd_run 8 nd_example = some (r, reads) ∧
      ccv_nnc_tensor_nd 8 nd_example = some r ∧
      reads.length ≤ 8 ∧ (∀ j ∈ reads, j < 8) ∧ reads = List.range reads.length ∧
      0 ≤ r ∧ r ≤ 8 ∧
      (r = 0 ↔ nd_example[0]? = some 0) ∧
      (r = 8 ↔ ∀ j < 8, nd_example[j]? ≠ some 0) :=
  tensor_nd_in_bounds 8 nd_example (by decide) (by decide)

end CCV.NNC
